import Mathlib

/-!
Verification of the timetable-optimizer core (`solver.py` / `planner.py`).

Shallow embedding: Python session dicts become the `Session` structure,
Python sets of week numbers become `Finset ℤ`, the CP-SAT model built by
`build_model` becomes an explicit `BuiltModel` record listing the generated
constraints, and satisfaction of those constraints by a 0/1 assignment of
the decision variables is the predicate `satisfiesCore`.  The external
OR-Tools solver is abstracted: a success result of `solve` is exactly the
extraction (`extract`) of an assignment satisfying the built model, and a
failure result carries the string computed by `analyze_infeasibility`.
-/

namespace Timetable

/-- One scheduled occurrence, as built by `load_lectures` / `load_indexes`:
`{"course": ..., "type": ..., "day": ..., "start": ..., "end": ..., "weeks": ...}`.
`stop` embeds the dict key `"end"` (a Lean keyword).  Week numbers are
integers (`Finset ℤ`) since `parse_weeks` applies Python `int` to remark
fragments. -/
structure Session where
  course : String
  stype : String
  day : Nat
  start : Nat
  stop : Nat
  weeks : Finset ℤ
  deriving DecidableEq

/-- `set(range(1, 14))` — the all-weeks default used for every lecture. -/
def allWeeks : Finset ℤ := ((List.range 13).map (fun n => (n : ℤ) + 1)).toFinset

/-- `{2, 4, 6, 8, 10, 12}` — the even-weeks default of `parse_weeks`. -/
def evenWeeks : Finset ℤ := ({2, 4, 6, 8, 10, 12} : Finset ℤ)

/-- `{1, 3, 5, 7, 9, 11, 13}` — the odd-weeks default of `parse_weeks`. -/
def oddWeeks : Finset ℤ := ({1, 3, 5, 7, 9, 11, 13} : Finset ℤ)

/-- `sessions_overlap` (solver.py): same weekday and the two half-open
minute intervals intersect; week logic is ignored. -/
def sessions_overlap (a b : Session) : Bool :=
  if a.day ≠ b.day then false
  else !(a.stop ≤ b.start || b.stop ≤ a.start)

/-- `labs_conflict` (solver.py): an overlapping LAB/LAB pair conflicts
exactly when its week sets intersect. -/
def labs_conflict (a b : Session) : Bool :=
  if sessions_overlap a b = false then false
  else decide (a.weeks ∩ b.weeks).Nonempty

/-- `strict_conflict` (solver.py): any overlapping pair conflicts, except
that a LAB/LAB pair is referred to the week-aware `labs_conflict`. -/
def strict_conflict (a b : Session) : Bool :=
  if sessions_overlap a b = false then false
  else if a.stype = "LAB" ∧ b.stype = "LAB" then labs_conflict a b
  else true

/-- The week-intersection test `s1["weeks"].intersection(s2["weeks"])`
(Python set truthiness) applied by every caller of `strict_conflict`. -/
def weeksIntersect (a b : Session) : Bool :=
  decide (a.weeks ∩ b.weeks).Nonempty

/-- The spec's single authoritative "combined check" (§4.2): two sessions
genuinely clash iff `conflicts(a,b)` and their active-week sets intersect.
In the code this is the nested guard `if strict_conflict(...): if
s1["weeks"].intersection(...)` used at every constraint-generation site. -/
def genuine_clash (a b : Session) : Bool :=
  strict_conflict a b && weeksIntersect a b

/-- Value of a list of decimal digit characters (big-endian). -/
def digitsVal (l : List Char) : ℕ :=
  l.foldl (fun acc c => 10 * acc + (c.toNat - ('0').toNat)) 0

/-- Model of Python `str.strip()`: remove leading and trailing
whitespace. -/
def trimChars (l : List Char) : List Char :=
  ((l.dropWhile Char.isWhitespace).reverse.dropWhile Char.isWhitespace).reverse

/-- Fuel-indexed worker of `stripPattern`; the fuel (initially the input
length) only makes the recursion structural and is never exhausted. -/
def stripPatternGo (pat : List Char) : ℕ → List Char → List Char
  | _, [] => []
  | 0, l => l
  | fuel + 1, c :: t =>
    if pat ≠ [] ∧ pat.isPrefixOf (c :: t)
    then stripPatternGo pat fuel (List.drop pat.length (c :: t))
    else c :: stripPatternGo pat fuel t

/-- Model of Python `str.replace(pat, "")`: delete the leftmost
occurrences of `pat`, scanning left to right without overlap. -/
def stripPattern (pat : List Char) (l : List Char) : List Char :=
  stripPatternGo pat l.length l

/-- Model of Python `str.split(",")`: split into comma-free fragments;
always yields at least one fragment. -/
def splitComma : List Char → List (List Char)
  | [] => [[]]
  | c :: t =>
    match splitComma t with
    | [] => [[]]
    | cur :: rest => if c = ',' then [] :: cur :: rest else (c :: cur) :: rest

/-- Model of the Python built-in `int(str)` as used by `parse_weeks`:
surrounding whitespace is ignored, an optional single sign is allowed, and
the rest must be one or more decimal digits; anything else raises
`ValueError`, embedded here as `none`. -/
def parsePyInt (s : List Char) : Option ℤ :=
  match trimChars s with
  | [] => none
  | c :: rest =>
    if c = '-' then
      if rest ≠ [] ∧ rest.all Char.isDigit then some (-(digitsVal rest : ℤ)) else none
    else if c = '+' then
      if rest ≠ [] ∧ rest.all Char.isDigit then some (digitsVal rest : ℤ) else none
    else if (c :: rest).all Char.isDigit then some (digitsVal (c :: rest) : ℤ)
    else none

/-- The number-extraction phase of `parse_weeks`:
`remark.replace("Teaching Wk", "")`, split on commas, and apply `int` to
each stripped fragment; `none` is the `ValueError` path (any fragment
failing to parse aborts the whole set construction). -/
def parsedInts (r : String) : Option (List ℤ) :=
  (splitComma (stripPattern "Teaching Wk".toList r.toList)).mapM
    (fun w => parsePyInt (trimChars w))

/-- The pattern-dependent default week set of `parse_weeks`. -/
def defaultWeeks (week_pattern : String) : Finset ℤ :=
  if week_pattern = "even" then evenWeeks
  else if week_pattern = "odd" then oddWeeks
  else allWeeks

/-- `parse_weeks` (solver.py): `remark = none` embeds a non-string cell
(e.g. NaN).  Empty/whitespace remarks and unparseable remarks fall back to
the pattern's default set; a parsed set is intersected with the parity
subset under `"even"`/`"odd"` and returned unfiltered otherwise. -/
def parse_weeks (remark : Option String) (week_pattern : String) : Finset ℤ :=
  match remark with
  | none => defaultWeeks week_pattern
  | some r =>
    if trimChars r.toList = [] then defaultWeeks week_pattern
    else
      match parsedInts r with
      | none => defaultWeeks week_pattern
      | some ws =>
        if week_pattern = "even" then ws.toFinset ∩ evenWeeks
        else if week_pattern = "odd" then ws.toFinset ∩ oddWeeks
        else ws.toFinset

/-- A `(course, index)` key of the `index_map` dict; one CP-SAT boolean
decision variable is created per key. -/
abbrev Key : Type := String × Nat

/-- The inputs of `build_model(lectures, index_map, selected_courses)`.
`index_map` is kept in dict insertion order as an association list. -/
structure ModelInput where
  lectures : List Session
  index_map : List (Key × List Session)
  selected : List String

/-- `[chosen[(c, idx)] for (c, idx) in index_map if c == course]` — the
decision variables eligible for one course's exactly-one constraint. -/
def eligibleKeys (inp : ModelInput) (course : String) : List Key :=
  (inp.index_map.map Prod.fst).filter (fun k => k.1 = course)

/-- The exactly-one constraint groups: one per selected course whose
eligible list is non-empty (otherwise the code only prints
`"Warning: No indexes found for course ..."` and adds nothing). -/
def exactlyOnes (inp : ModelInput) : List (List Key) :=
  inp.selected.filterMap (fun c =>
    if eligibleKeys inp c = [] then none else some (eligibleKeys inp c))

/-- The flattened `all_index_sessions` list: every session of every index
option, tagged with its `(course, index)` key, in `index_map` order. -/
def allIndexSessions (inp : ModelInput) : List (Key × Session) :=
  inp.index_map.flatMap (fun e => e.2.map (fun s => (e.1, s)))

/-- The forbidding constraints `chosen[(c1, i1)] == 0`: one per
(index session, lecture) pair passing the nested guard
`strict_conflict` + week intersection. -/
def forbids (inp : ModelInput) : List Key :=
  (allIndexSessions inp).flatMap (fun ks =>
    inp.lectures.filterMap (fun lec =>
      if strict_conflict ks.2 lec = true ∧ weeksIntersect ks.2 lec = true
      then some ks.1 else none))

/-- Ordered pairs `(l[i], l[j])` with `i < j`, as produced by the
`for i ... for j in range(i + 1, ...)` double loop. -/
def pairsOf {α : Type} : List α → List (α × α)
  | [] => []
  | a :: t => t.map (fun b => (a, b)) ++ pairsOf t

/-- The mutual-exclusion constraints `chosen[k1] + chosen[k2] <= 1`: one
per ordered session pair from different courses passing the nested
`strict_conflict` + week-intersection guard. -/
def mutexes (inp : ModelInput) : List (Key × Key) :=
  (pairsOf (allIndexSessions inp)).filterMap (fun p =>
    if p.1.1.1 = p.2.1.1 then none
    else if strict_conflict p.1.2 p.2.2 = true ∧ weeksIntersect p.1.2 p.2.2 = true
    then some (p.1.1, p.2.1) else none)

/-- The decision variables collected for campus day `d`: one occurrence of
`chosen[(course, idx)]` per session of that option lying on weekday `d`
with type `"TUT"` or `"LAB"`.  Lectures are never consulted. -/
def dayVars (index_map : List (Key × List Session)) (d : Nat) : List Key :=
  index_map.flatMap (fun e =>
    e.2.filterMap (fun s =>
      if s.day = d ∧ (s.stype = "TUT" ∨ s.stype = "LAB")
      then some e.1 else none))

/-- The constraint model produced by `build_model`, with the CP-SAT
objects replaced by explicit lists of the generated constraints.
`campus` holds, for each of the five weekdays, the variable list whose OR
the campus-day indicator is constrained to equal (`AddMaxEquality`, or
`== 0` when the list is empty). -/
structure BuiltModel where
  exactlyOnes : List (List Key)
  forbids : List Key
  mutexes : List (Key × Key)
  campus : List (List Key)

/-- `build_model` (solver.py). -/
def build_model (inp : ModelInput) : BuiltModel :=
  { exactlyOnes := exactlyOnes inp
    forbids := forbids inp
    mutexes := mutexes inp
    campus := (List.range 5).map (dayVars inp.index_map) }

/-- Satisfaction of the core constraints by a 0/1 assignment of the
decision variables: each exactly-one group sums to 1, each forbidden
variable is 0, and no mutual-exclusion pair is doubly chosen. -/
def satisfiesCore (m : BuiltModel) (x : Key → Bool) : Prop :=
  (∀ g ∈ m.exactlyOnes, g.countP x = 1) ∧
  (∀ k ∈ m.forbids, x k = false) ∧
  (∀ p ∈ m.mutexes, x p.1 = false ∨ x p.2 = false)

instance (m : BuiltModel) (x : Key → Bool) : Decidable (satisfiesCore m x) := by
  unfold satisfiesCore; infer_instance

/-- Satisfaction of the campus-day constraints: the five indicator values
`cvals` are forced by `AddMaxEquality` to the OR of their variable lists
(`== 0` when the list is empty). -/
def campusConstraintsHold (index_map : List (Key × List Session)) (x : Key → Bool)
    (cvals : List Bool) : Prop :=
  cvals.length = 5 ∧
  ∀ d < 5, if dayVars index_map d = []
           then cvals.getD d false = false
           else cvals.getD d false = (dayVars index_map d).any x

/-- The objective `Minimize(sum(campus_day))` evaluated at indicator
values `cvals`. -/
def modelObjective (cvals : List Bool) : ℕ :=
  (cvals.map (fun b => if b then 1 else 0)).sum

/-- The keys whose decision variable the solver set to 1, in `chosen`
dict order.  `solve` builds its `chosen_indexes` dict from these. -/
def chosenKeys (inp : ModelInput) (x : Key → Bool) : List Key :=
  (inp.index_map.map Prod.fst).filter (fun k => x k)

/-- The resolved weekly timetable built by the success branch of `solve`:
every session of every chosen index (course taken from the key), followed
by every lecture. -/
def timetable (inp : ModelInput) (x : Key → Bool) : List Session :=
  (inp.index_map.flatMap (fun e =>
    if x e.1 = true then e.2.map (fun s => { s with course := e.1.1 }) else [])) ++
  inp.lectures

/-- The payload of a `{"success": True, ...}` result of `solve`.
`indexes` is the `chosen_indexes` dict as an association list in
insertion order. -/
structure SolveSuccess where
  indexes : List Key
  timetable : List Session
  campus_days : ℕ

/-- The success branch of `solve` applied to a satisfying assignment `x`
returned by the (external, abstracted) CP-SAT solver.  `campus_days` sums
the five campus-day indicators, whose values `AddMaxEquality` forces to
the OR of their variable lists. -/
def extract (inp : ModelInput) (x : Key → Bool) : SolveSuccess :=
  { indexes := chosenKeys inp x
    timetable := timetable inp x
    campus_days := (List.range 5).countP (fun d => (dayVars inp.index_map d).any x) }

/-- First scan of `analyze_infeasibility`: each selected course's lectures
against the index options of the *other* selected courses, in order;
returns the first genuinely clashing pair's message. -/
def firstLectureConflict (inp : ModelInput) : Option String :=
  inp.selected.findSome? (fun course =>
    (inp.lectures.filter (fun lec => lec.course = course)).findSome? (fun lec =>
      (inp.selected.filter (fun c => c ≠ course)).findSome? (fun oc =>
        (inp.index_map.filter (fun e => e.1.1 = oc)).findSome? (fun e =>
          e.2.findSome? (fun s =>
            if strict_conflict lec s = true ∧ weeksIntersect lec s = true
            then some ("Conflict: " ++ course ++ " lecture clashes with " ++ oc ++
                       " " ++ s.stype ++ " (Index " ++ toString e.1.2 ++ ")")
            else none)))))

/-- Second scan of `analyze_infeasibility`: index options of every ordered
pair of distinct selected courses, session against session. -/
def firstIndexPairConflict (inp : ModelInput) : Option String :=
  (pairsOf inp.selected).findSome? (fun cp =>
    (inp.index_map.filter (fun e => e.1.1 = cp.1)).findSome? (fun e1 =>
      (inp.index_map.filter (fun e => e.1.1 = cp.2)).findSome? (fun e2 =>
        e1.2.findSome? (fun s1 =>
          e2.2.findSome? (fun s2 =>
            if strict_conflict s1 s2 = true ∧ weeksIntersect s1 s2 = true
            then some ("Conflict: " ++ cp.1 ++ " Index " ++ toString e1.1.2 ++
                       " clashes with " ++ cp.2 ++ " Index " ++ toString e2.1.2)
            else none)))))

/-- `analyze_infeasibility` (solver.py): the diagnostic string returned in
the failure branch of `solve`. -/
def analyze_infeasibility (inp : ModelInput) : String :=
  match firstLectureConflict inp with
  | some msg => msg
  | none =>
    match firstIndexPairConflict inp with
    | some msg => msg
    | none => "No feasible schedule found due to timing conflicts"

/-- A model of `solve` (solver.py): the external CP-SAT solver either
hands back an assignment satisfying the built model (success branch,
payload `extract`) or proves the model infeasible (failure branch,
payload `analyze_infeasibility`).  `feasible` is the condition separating
the two branches. -/
def feasible (inp : ModelInput) : Prop :=
  ∃ x : Key → Bool, satisfiesCore (build_model inp) x

/-- One solution recorded by the `SolutionCollector` callback of
`planner.solve`: the values of all decision variables plus the summed
campus-day count. -/
structure PSolution where
  chosen : List (Key × Bool)
  campus_days : ℕ
  deriving DecidableEq

/-- The `SolutionCollector` callback run over the solver's discovery
stream: it stores the first `max_solutions` solutions and stops the
search on the next callback. -/
def collectSolutions (stream : List PSolution) (max_solutions : ℕ) : List PSolution :=
  stream.take max_solutions

/-- `solutions.sort(key=lambda s: s["campus_days"])` is a stable sort;
this is its insertion-sort model: an element is inserted after every
element with a key not larger than its own, so ties keep their original
relative order. -/
def insertByCampus (s : PSolution) : List PSolution → List PSolution
  | [] => [s]
  | t :: ts => if t.campus_days < s.campus_days
               then t :: insertByCampus s ts
               else s :: t :: ts

/-- Stable sort of the collected solutions by ascending campus-day count
(model of Python `list.sort` with the `campus_days` key). -/
def sortByCampus : List PSolution → List PSolution
  | [] => []
  | s :: ss => insertByCampus s (sortByCampus ss)

/-- `solve` (planner.py) downstream of the external solver, applied to
the solver's discovery stream: collect up to `num_solutions` solutions,
return `none` when nothing was collected (the `"No feasible solution
found!"` branch), otherwise the stable-sorted list truncated to
`num_solutions`. -/
def planner_solve (stream : List PSolution) (num_solutions : ℕ) : Option (List PSolution) :=
  let solutions := collectSolutions stream num_solutions
  if solutions = [] then none
  else some ((sortByCampus solutions).take num_solutions)

/-! ### Concrete instances used by witnesses and counterexamples -/

/-- Lecture of course A, Monday 09:00–10:00, all weeks. -/
def lecA : Session := ⟨"A", "LEC", 0, 540, 600, allWeeks⟩

/-- Lecture of course B, Monday 09:00–10:00, all weeks (clashes with `lecA`). -/
def lecB : Session := ⟨"B", "LEC", 0, 540, 600, allWeeks⟩

/-- Tutorial of course A's only index, Tuesday 09:00–10:00. -/
def tutA : Session := ⟨"A", "TUT", 1, 540, 600, allWeeks⟩

/-- Tutorial of course B's only index, Wednesday 09:00–10:00. -/
def tutB : Session := ⟨"B", "TUT", 2, 540, 600, allWeeks⟩

/-- Input whose lectures (of different selected courses) clash Monday
09:00–10:00 while the index options are conflict-free, and whose selected
course C has no index options at all. -/
def inpC1 : ModelInput :=
  { lectures := [lecA, lecB]
    index_map := [(("A", 1), [tutA]), (("B", 1), [tutB])]
    selected := ["A", "B", "C"] }

/-- The assignment choosing index 1 of A and index 1 of B. -/
def xC1 : Key → Bool := fun k => k = ("A", 1) || k = ("B", 1)

/-- Input with a selected course C that has no index options. -/
def inpC5 : ModelInput :=
  { lectures := []
    index_map := [(("A", 1), [tutA])]
    selected := ["A", "C"] }

/-- The assignment choosing index 1 of A. -/
def xC5 : Key → Bool := fun k => k = ("A", 1)

/-- Lecture of the single course CS1, Monday 09:00–10:00, all weeks. -/
def lecC6 : Session := ⟨"CS1", "LEC", 0, 540, 600, allWeeks⟩

/-- CS1's only tutorial option, also Monday 09:00–10:00, all weeks. -/
def tutC6 : Session := ⟨"CS1", "TUT", 0, 540, 600, allWeeks⟩

/-- End-to-end scenario 2 of the spec: one course whose lecture clashes
with its own single tutorial index. -/
def inpC6 : ModelInput :=
  { lectures := [lecC6]
    index_map := [(("CS1", 1), [tutC6])]
    selected := ["CS1"] }

/-- Odd-weeks tutorial, Monday 09:00–10:00. -/
def tutOdd : Session := ⟨"A", "TUT", 0, 540, 600, oddWeeks⟩

/-- Even-weeks tutorial at the same time as `tutOdd`. -/
def tutEven : Session := ⟨"B", "TUT", 0, 540, 600, evenWeeks⟩

/-- Odd-weeks lab, Tuesday 14:00–16:00. -/
def labOdd : Session := ⟨"A", "LAB", 1, 840, 960, oddWeeks⟩

/-- Even-weeks lab with the identical time slot as `labOdd`. -/
def labEven : Session := ⟨"B", "LAB", 1, 840, 960, evenWeeks⟩

/-- A recorded solution with two campus days. -/
def psol1 : PSolution := ⟨[(("A", 1), true)], 2⟩

/-! ### Helper lemmas -/

theorem genuine_clash_eq_true {a b : Session} :
    genuine_clash a b = true ↔
      (strict_conflict a b = true ∧ weeksIntersect a b = true) := by
  simp [genuine_clash]

theorem sessions_overlap_comm (a b : Session) :
    sessions_overlap a b = sessions_overlap b a := by
  unfold sessions_overlap
  by_cases h : a.day = b.day
  · simp [h, Bool.or_comm]
  · have h' : b.day ≠ a.day := fun hh => h hh.symm
    simp [h, h']

theorem weeksIntersect_comm (a b : Session) :
    weeksIntersect a b = weeksIntersect b a := by
  simp [weeksIntersect, Finset.inter_comm]

theorem labs_conflict_comm (a b : Session) :
    labs_conflict a b = labs_conflict b a := by
  unfold labs_conflict
  rw [sessions_overlap_comm, Finset.inter_comm]

theorem strict_conflict_comm (a b : Session) :
    strict_conflict a b = strict_conflict b a := by
  unfold strict_conflict
  rw [sessions_overlap_comm, labs_conflict_comm]
  by_cases h : sessions_overlap b a = false
  · simp [h]
  · simp only [h]
    by_cases h2 : a.stype = "LAB" ∧ b.stype = "LAB"
    · simp [h2, h2.1, h2.2]
    · have h3 : ¬(b.stype = "LAB" ∧ a.stype = "LAB") := fun hh => h2 ⟨hh.2, hh.1⟩
      simp [h2, h3]

theorem genuine_clash_comm (a b : Session) :
    genuine_clash a b = genuine_clash b a := by
  simp [genuine_clash, strict_conflict_comm, weeksIntersect_comm]

theorem mem_allIndexSessions {inp : ModelInput} {ks : Key × Session} :
    ks ∈ allIndexSessions inp ↔
      ∃ e ∈ inp.index_map, e.1 = ks.1 ∧ ks.2 ∈ e.2 := by
  obtain ⟨k, s⟩ := ks
  simp only [allIndexSessions, List.mem_flatMap, List.mem_map]
  constructor
  · rintro ⟨e, he, s', hs', hq⟩
    obtain ⟨rfl, rfl⟩ := Prod.mk.injEq .. ▸ hq
    exact ⟨e, he, rfl, hs'⟩
  · rintro ⟨e, he, h1, h2⟩
    exact ⟨e, he, s, h2, by rw [h1]⟩

theorem mem_forbids_iff {inp : ModelInput} {k : Key} :
    k ∈ forbids inp ↔
      ∃ e ∈ inp.index_map, e.1 = k ∧
        ∃ s ∈ e.2, ∃ lec ∈ inp.lectures, genuine_clash s lec = true := by
  simp only [forbids, List.mem_flatMap, List.mem_filterMap]
  constructor
  · rintro ⟨⟨k', s⟩, hks, lec, hlec, hif⟩
    by_cases hc : strict_conflict s lec = true ∧ weeksIntersect s lec = true
    · rw [if_pos hc] at hif
      obtain rfl : k' = k := by injection hif
      obtain ⟨e, he, h1, h2⟩ := mem_allIndexSessions.mp hks
      exact ⟨e, he, h1, s, h2, lec, hlec, genuine_clash_eq_true.mpr hc⟩
    · rw [if_neg hc] at hif; cases hif
  · rintro ⟨e, he, h1, s, hs, lec, hlec, hcl⟩
    refine ⟨(k, s), mem_allIndexSessions.mpr ⟨e, he, h1, hs⟩, lec, hlec, ?_⟩
    rw [if_pos (genuine_clash_eq_true.mp hcl)]

theorem pairsOf_mem_iff {α : Type} {l : List α} {p : α × α} :
    p ∈ pairsOf l ↔ [p.1, p.2].Sublist l := by
  obtain ⟨x, y⟩ := p
  induction l with
  | nil => simp [pairsOf]
  | cons a t ih =>
    simp only [pairsOf, List.mem_append, List.mem_map, ih]
    constructor
    · rintro (⟨b, hb, hq⟩ | h)
      · obtain ⟨rfl, rfl⟩ := Prod.mk.injEq .. ▸ hq
        exact List.Sublist.cons₂ a (List.singleton_sublist.mpr hb)
      · exact h.cons a
    · intro h
      cases h with
      | cons _ h' => exact Or.inr h'
      | cons₂ _ h' =>
        exact Or.inl ⟨y, List.singleton_sublist.mp h', rfl⟩

theorem sublist_pair_of_mem {α : Type} {a b : α} {l : List α}
    (ha : a ∈ l) (hb : b ∈ l) (hne : a ≠ b) :
    [a, b].Sublist l ∨ [b, a].Sublist l := by
  induction l with
  | nil => cases ha
  | cons x t ih =>
    rcases List.mem_cons.mp ha with rfl | ha'
    · rcases List.mem_cons.mp hb with rfl | hb'
      · exact absurd rfl hne
      · exact Or.inl (List.Sublist.cons₂ a (List.singleton_sublist.mpr hb'))
    · rcases List.mem_cons.mp hb with rfl | hb'
      · exact Or.inr (List.Sublist.cons₂ b (List.singleton_sublist.mpr ha'))
      · rcases ih ha' hb' with h | h
        · exact Or.inl (h.cons x)
        · exact Or.inr (h.cons x)

theorem mem_mutexes_iff {inp : ModelInput} {q : Key × Key} :
    q ∈ mutexes inp ↔
      ∃ p ∈ pairsOf (allIndexSessions inp),
        p.1.1.1 ≠ p.2.1.1 ∧ genuine_clash p.1.2 p.2.2 = true ∧ q = (p.1.1, p.2.1) := by
  simp only [mutexes, List.mem_filterMap]
  constructor
  · rintro ⟨p, hp, hif⟩
    by_cases h1 : p.1.1.1 = p.2.1.1
    · rw [if_pos h1] at hif; cases hif
    · rw [if_neg h1] at hif
      by_cases h2 : strict_conflict p.1.2 p.2.2 = true ∧ weeksIntersect p.1.2 p.2.2 = true
      · rw [if_pos h2] at hif
        obtain rfl : (p.1.1, p.2.1) = q := by injection hif
        exact ⟨p, hp, h1, genuine_clash_eq_true.mpr h2, rfl⟩
      · rw [if_neg h2] at hif; cases hif
  · rintro ⟨p, hp, h1, h2, rfl⟩
    refine ⟨p, hp, ?_⟩
    rw [if_neg h1, if_pos (genuine_clash_eq_true.mp h2)]

theorem mutex_or_of_clash {inp : ModelInput} {e1 e2 : Key × List Session}
    {s1 s2 : Session} (he1 : e1 ∈ inp.index_map) (he2 : e2 ∈ inp.index_map)
    (hs1 : s1 ∈ e1.2) (hs2 : s2 ∈ e2.2) (hc : e1.1.1 ≠ e2.1.1)
    (hcl : genuine_clash s1 s2 = true) :
    (e1.1, e2.1) ∈ mutexes inp ∨ (e2.1, e1.1) ∈ mutexes inp := by
  have h1 : (e1.1, s1) ∈ allIndexSessions inp :=
    mem_allIndexSessions.mpr ⟨e1, he1, rfl, hs1⟩
  have h2 : (e2.1, s2) ∈ allIndexSessions inp :=
    mem_allIndexSessions.mpr ⟨e2, he2, rfl, hs2⟩
  have hne : (e1.1, s1) ≠ (e2.1, s2) := by
    intro h
    exact hc (congrArg (fun z => z.1.1) h)
  rcases sublist_pair_of_mem h1 h2 hne with h | h
  · exact Or.inl (mem_mutexes_iff.mpr
      ⟨((e1.1, s1), (e2.1, s2)), pairsOf_mem_iff.mpr h, hc, hcl, rfl⟩)
  · refine Or.inr (mem_mutexes_iff.mpr
      ⟨((e2.1, s2), (e1.1, s1)), pairsOf_mem_iff.mpr h, fun hh => hc hh.symm, ?_, rfl⟩)
    rw [genuine_clash_comm]; exact hcl

theorem mem_exactlyOnes_iff {inp : ModelInput} {g : List Key} :
    g ∈ exactlyOnes inp ↔
      ∃ c ∈ inp.selected, eligibleKeys inp c ≠ [] ∧ g = eligibleKeys inp c := by
  simp only [exactlyOnes, List.mem_filterMap]
  constructor
  · rintro ⟨c, hc, hif⟩
    by_cases h : eligibleKeys inp c = []
    · simp [h] at hif
    · rw [if_neg h] at hif
      obtain rfl : eligibleKeys inp c = g := by injection hif
      exact ⟨c, hc, h, rfl⟩
  · rintro ⟨c, hc, h, rfl⟩
    exact ⟨c, hc, by rw [if_neg h]⟩

theorem length_insertByCampus (s : PSolution) (l : List PSolution) :
    (insertByCampus s l).length = l.length + 1 := by
  induction l with
  | nil => rfl
  | cons t ts ih =>
    unfold insertByCampus
    by_cases h : t.campus_days < s.campus_days
    · simp [h, ih]
    · simp [h]

theorem length_sortByCampus (l : List PSolution) :
    (sortByCampus l).length = l.length := by
  induction l with
  | nil => rfl
  | cons s ss ih => simp [sortByCampus, length_insertByCampus, ih]

theorem mem_insertByCampus {s t : PSolution} {l : List PSolution} :
    t ∈ insertByCampus s l ↔ t = s ∨ t ∈ l := by
  induction l with
  | nil => simp [insertByCampus]
  | cons u us ih =>
    unfold insertByCampus
    by_cases h : u.campus_days < s.campus_days
    · simp only [if_pos h, List.mem_cons, ih]
      tauto
    · simp [if_neg h, List.mem_cons]

theorem pairwise_insertByCampus {s : PSolution} {l : List PSolution}
    (h : l.Pairwise (fun a b => a.campus_days ≤ b.campus_days)) :
    (insertByCampus s l).Pairwise (fun a b => a.campus_days ≤ b.campus_days) := by
  induction l with
  | nil => simp [insertByCampus]
  | cons t ts ih =>
    unfold insertByCampus
    by_cases hlt : t.campus_days < s.campus_days
    · rw [if_pos hlt]
      rw [List.pairwise_cons] at h ⊢
      refine ⟨?_, ih h.2⟩
      intro y hy
      rcases mem_insertByCampus.mp hy with rfl | hy'
      · exact le_of_lt hlt
      · exact h.1 y hy'
    · rw [if_neg hlt]
      rw [List.pairwise_cons]
      refine ⟨?_, h⟩
      intro y hy
      rcases List.mem_cons.mp hy with rfl | hy'
      · exact le_of_not_lt hlt
      · exact le_trans (le_of_not_lt hlt) ((List.pairwise_cons.mp h).1 y hy')

theorem sorted_sortByCampus (l : List PSolution) :
    (sortByCampus l).Pairwise (fun a b => a.campus_days ≤ b.campus_days) := by
  induction l with
  | nil => simp [sortByCampus]
  | cons s ss ih => exact pairwise_insertByCampus ih

theorem filter_insertByCampus (s : PSolution) (l : List PSolution) (k : ℕ) :
    (insertByCampus s l).filter (fun t => t.campus_days = k) =
      if s.campus_days = k
      then s :: l.filter (fun t => t.campus_days = k)
      else l.filter (fun t => t.campus_days = k) := by
  induction l with
  | nil =>
    by_cases h : s.campus_days = k <;> simp [insertByCampus, h]
  | cons t ts ih =>
    unfold insertByCampus
    by_cases hlt : t.campus_days < s.campus_days
    · rw [if_pos hlt]
      by_cases hs : s.campus_days = k
      · have ht : ¬ t.campus_days = k := by omega
        simp [List.filter_cons, ht, ih, hs]
      · simp [List.filter_cons, ih, hs]
    · rw [if_neg hlt]
      by_cases hs : s.campus_days = k <;> simp [List.filter_cons, hs]

theorem filter_sortByCampus (l : List PSolution) (k : ℕ) :
    (sortByCampus l).filter (fun t => t.campus_days = k) =
      l.filter (fun t => t.campus_days = k) := by
  induction l with
  | nil => rfl
  | cons s ss ih =>
    unfold sortByCampus
    rw [filter_insertByCampus]
    by_cases hs : s.campus_days = k
    · simp [List.filter_cons, hs, ih]
    · simp [List.filter_cons, hs, ih]

theorem filterMap_filter_of_none {α β : Type} {f : α → Option β} {c : α}
    [DecidableEq α] (hf : f c = none) (l : List α) :
    (l.filter (fun a => a ≠ c)).filterMap f = l.filterMap f := by
  induction l with
  | nil => rfl
  | cons a t ih =>
    rw [List.filter_cons]
    by_cases h : a = c
    · subst h
      have hcond : (decide (a ≠ a)) = false := by simp
      rw [hcond]
      simp only [Bool.false_eq_true, if_false]
      rw [List.filterMap_cons, hf]
      exact ih
    · have hcond : (decide (a ≠ c)) = true := by simp [h]
      rw [hcond]
      simp only [if_true]
      simp only [ne_eq, decide_not] at ih
      cases hfa : f a <;> simp [List.filterMap_cons, hfa, ih]

theorem mem_dayVars_iff {index_map : List (Key × List Session)} {d : ℕ} {k : Key} :
    k ∈ dayVars index_map d ↔
      ∃ e ∈ index_map, e.1 = k ∧
        ∃ s ∈ e.2, s.day = d ∧ (s.stype = "TUT" ∨ s.stype = "LAB") := by
  simp only [dayVars, List.mem_flatMap, List.mem_filterMap]
  constructor
  · rintro ⟨e, he, s, hs, hif⟩
    by_cases hc : s.day = d ∧ (s.stype = "TUT" ∨ s.stype = "LAB")
    · rw [if_pos hc] at hif
      obtain rfl : e.1 = k := by injection hif
      exact ⟨e, he, rfl, s, hs, hc⟩
    · rw [if_neg hc] at hif; cases hif
  · rintro ⟨e, he, rfl, s, hs, hc⟩
    exact ⟨e, he, s, hs, by rw [if_pos hc]⟩

theorem sum_map_indicator (l : List ℕ) (p : ℕ → Bool) :
    ((l.map p).map (fun b => if b then 1 else 0)).sum = l.countP p := by
  induction l with
  | nil => rfl
  | cons a t ih =>
    simp only [List.map_cons, List.sum_cons, List.countP_cons, ih]
    by_cases h : p a
    · simp [h]
      omega
    · simp [h]

theorem campusConstraintsHold_iff {index_map : List (Key × List Session)}
    {x : Key → Bool} {cvals : List Bool} :
    campusConstraintsHold index_map x cvals ↔
      cvals = (List.range 5).map (fun d => (dayVars index_map d).any x) := by
  constructor
  · rintro ⟨hlen, hall⟩
    apply List.ext_getElem
    · simp [hlen]
    · intro n h1 h2
      have hn5 : n < 5 := by rw [hlen] at h1; exact h1
      have hgd := hall n hn5
      rw [List.getD_eq_getElem cvals false h1] at hgd
      rw [List.getElem_map, List.getElem_range]
      by_cases hdv : dayVars index_map n = []
      · rw [if_pos hdv] at hgd
        simp [hdv, hgd]
      · rw [if_neg hdv] at hgd
        exact hgd
  · rintro rfl
    refine ⟨by simp, ?_⟩
    intro d hd
    have hlt : d < ((List.range 5).map (fun d => (dayVars index_map d).any x)).length := by
      simp [hd]
    have hgd : ((List.range 5).map (fun d => (dayVars index_map d).any x)).getD d false
        = (dayVars index_map d).any x := by
      rw [List.getD_eq_getElem _ false hlt, List.getElem_map, List.getElem_range]
    by_cases hdv : dayVars index_map d = []
    · rw [if_pos hdv, hgd, hdv]
      rfl
    · rw [if_neg hdv, hgd]

/-! ### Claims -/

/-- C4: `sessions_overlap a b` holds iff the sessions are on the same
weekday and their half-open minute intervals intersect (`a.start < b.end`
and `b.start < a.end`, so touching endpoints do not overlap); hence any
two sessions on different weekdays never conflict, regardless of time or
type. -/
theorem claim_C4 (a b : Session) :
    (sessions_overlap a b = true ↔
      (a.day = b.day ∧ a.start < b.stop ∧ b.start < a.stop)) ∧
    (a.day ≠ b.day → strict_conflict a b = false) := by
  constructor
  · by_cases h : a.day = b.day
    · simp only [sessions_overlap, h, ne_eq, not_true_eq_false, if_false]
      simp only [Bool.not_eq_true', Bool.or_eq_false_iff, decide_eq_false_iff_not, not_le]
      tauto
    · simp [sessions_overlap, h]
  · intro h
    have hov : sessions_overlap a b = false := by simp [sessions_overlap, h]
    simp [strict_conflict, hov]

/-- Witness for C4 at concrete sessions: `tutA` (Tuesday) and `tutB`
(Wednesday) are on different weekdays and therefore never conflict. -/
theorem claim_C4_witness : strict_conflict tutA tutB = false :=
  (claim_C4 tutA tutB).2 (by decide)

/-- C3: for two LAB sessions whose time intervals overlap on the same
weekday, `strict_conflict` holds iff their active-week sets intersect; in
particular, two labs with disjoint week sets never clash even with an
identical slot. -/
theorem claim_C3 (a b : Session) (ha : a.stype = "LAB") (hb : b.stype = "LAB")
    (hov : sessions_overlap a b = true) :
    strict_conflict a b = true ↔ (a.weeks ∩ b.weeks).Nonempty := by
  simp [strict_conflict, labs_conflict, hov, ha, hb]

/-- Witness for C3: the odd-weeks lab and the even-weeks lab share the
identical Tuesday 14:00–16:00 slot, their week sets are disjoint, and so
they do not clash. -/
theorem claim_C3_witness :
    (strict_conflict labOdd labEven = true ↔ (labOdd.weeks ∩ labEven.weeks).Nonempty) ∧
    ¬ (labOdd.weeks ∩ labEven.weeks).Nonempty :=
  ⟨claim_C3 labOdd labEven rfl rfl (by decide), by decide⟩

/-- C2: two sessions genuinely clash in the built model iff
`strict_conflict` holds and their week sets intersect: every generated
mutual-exclusion and forbidding constraint arises from a session pair
passing that combined check, so no constraint is generated for a pair
failing it; and for every non-LAB-LAB pair with overlapping time,
`strict_conflict` is true regardless of week sets, yet disjoint week sets
make the combined check false. -/
theorem claim_C2 (a b : Session) (inp : ModelInput) (p : Key × Key) (k : Key) :
    (genuine_clash a b = (strict_conflict a b && weeksIntersect a b)) ∧
    (¬(a.stype = "LAB" ∧ b.stype = "LAB") → sessions_overlap a b = true →
      strict_conflict a b = true ∧
        (a.weeks ∩ b.weeks = ∅ → genuine_clash a b = false)) ∧
    (p ∈ (build_model inp).mutexes →
      ∃ q ∈ pairsOf (allIndexSessions inp),
        p = (q.1.1, q.2.1) ∧ genuine_clash q.1.2 q.2.2 = true) ∧
    (k ∈ (build_model inp).forbids →
      ∃ e ∈ inp.index_map, e.1 = k ∧
        ∃ s ∈ e.2, ∃ lec ∈ inp.lectures, genuine_clash s lec = true) := by
  refine ⟨rfl, ?_, ?_, fun hk => mem_forbids_iff.mp hk⟩
  · intro hlab hov
    refine ⟨by simp [strict_conflict, hov, hlab], ?_⟩
    intro hw
    simp [genuine_clash, weeksIntersect, hw]
  · intro hp
    obtain ⟨q, hq, hne, hcl, rfl⟩ := mem_mutexes_iff.mp hp
    exact ⟨q, hq, rfl, hcl⟩

/-- Witness for C2: the odd-weeks tutorial and the same-slot even-weeks
tutorial conflict in time, but their combined clash check is false. -/
theorem claim_C2_witness :
    strict_conflict tutOdd tutEven = true ∧ genuine_clash tutOdd tutEven = false := by
  have h := (claim_C2 tutOdd tutEven inpC1 (("A", 1), ("B", 1)) ("A", 1)).2.1
    (by decide) (by decide)
  exact ⟨h.1, h.2 (by decide)⟩

/-- C10: `parse_weeks` falls back to the pattern's default set on a
non-string, blank, or unparseable remark; a parsed remark is intersected
with the parity subset under `"even"`/`"odd"` (possibly yielding the empty
set) and returned unfiltered under `"all"` (possibly containing weeks
outside 1–13), so loaded sessions need not satisfy the non-empty
`activeWeeks ⊆ [1,13]` invariant. -/
theorem claim_C10 :
    (∀ p, parse_weeks none p = defaultWeeks p) ∧
    (∀ p r, trimChars r.toList = [] → parse_weeks (some r) p = defaultWeeks p) ∧
    (∀ p r, parsedInts r = none → parse_weeks (some r) p = defaultWeeks p) ∧
    (∀ r ws, trimChars r.toList ≠ [] → parsedInts r = some ws →
      parse_weeks (some r) "even" = ws.toFinset ∩ evenWeeks ∧
      parse_weeks (some r) "odd" = ws.toFinset ∩ oddWeeks ∧
      parse_weeks (some r) "all" = ws.toFinset) ∧
    parse_weeks (some "1,3") "even" = ∅ ∧
    parse_weeks (some "Teaching Wk0,20") "all" = {0, 20} ∧
    ¬ parse_weeks (some "Teaching Wk0,20") "all" ⊆ Finset.Icc (1 : ℤ) 13 := by
  refine ⟨fun p => rfl, ?_, ?_, ?_, by decide, by decide, by decide⟩
  · intro p r h
    have h2 : trimChars r.data = [] := h
    simp [parse_weeks, h2]
  · intro p r h
    by_cases ht : trimChars r.data = []
    · simp [parse_weeks, ht]
    · simp [parse_weeks, ht, h]
  · intro r ws ht hw
    have ht2 : ¬ trimChars r.data = [] := ht
    refine ⟨?_, ?_, ?_⟩ <;> simp [parse_weeks, ht2, hw]

/-- Witness for C10: an unparseable remark and a whitespace remark both
fall back to the pattern default. -/
theorem claim_C10_witness :
    parse_weeks (some "Teaching WkA") "all" = defaultWeeks "all" ∧
    parse_weeks (some " ") "even" = defaultWeeks "even" :=
  ⟨claim_C10.2.2.1 "all" "Teaching WkA" (by decide),
   claim_C10.2.1 "even" " " (by decide)⟩

/-- C8: the built model has exactly five campus-day indicators; the `d`-th
is constrained to the OR of the chosen-index variables of every option
with a session on weekday `d` of type TUT or LAB (and to 0 when that
variable list is empty); lectures never contribute (the indicators are
unchanged under any replacement of the lecture list); and the objective is
the sum of the five indicators, which equals the campus-day count that
`solve` reports. -/
theorem claim_C8 (inp : ModelInput) :
    ((build_model inp).campus.length = 5) ∧
    (∀ d, d < 5 → (build_model inp).campus.getD d [] = dayVars inp.index_map d) ∧
    (∀ d k, k ∈ dayVars inp.index_map d ↔
      ∃ e ∈ inp.index_map, e.1 = k ∧
        ∃ s ∈ e.2, s.day = d ∧ (s.stype = "TUT" ∨ s.stype = "LAB")) ∧
    (∀ lecs sel,
      (build_model { lectures := lecs, index_map := inp.index_map, selected := sel }).campus
        = (build_model inp).campus) ∧
    (∀ (x : Key → Bool) (cvals : List Bool),
      campusConstraintsHold inp.index_map x cvals ↔
        cvals = (List.range 5).map (fun d => (dayVars inp.index_map d).any x)) ∧
    (∀ (x : Key → Bool) (cvals : List Bool),
      campusConstraintsHold inp.index_map x cvals →
        modelObjective cvals = (extract inp x).campus_days) := by
  refine ⟨?_, ?_, fun d k => mem_dayVars_iff, fun lecs sel => rfl,
    fun x cvals => campusConstraintsHold_iff, ?_⟩
  · simp [build_model]
  · intro d hd
    have hlt : d < ((List.range 5).map (dayVars inp.index_map)).length := by simp [hd]
    show ((List.range 5).map (dayVars inp.index_map)).getD d [] = _
    rw [List.getD_eq_getElem _ [] hlt, List.getElem_map, List.getElem_range]
  · intro x cvals h
    rw [campusConstraintsHold_iff.mp h]
    exact sum_map_indicator (List.range 5) (fun d => (dayVars inp.index_map d).any x)

/-- Witness for C8 at the concrete input `inpC1` and assignment `xC1`:
the forced indicator values satisfy the campus constraints and sum to the
reported two campus days (Tuesday and Wednesday). -/
theorem claim_C8_witness :
    campusConstraintsHold inpC1.index_map xC1
      ((List.range 5).map (fun d => (dayVars inpC1.index_map d).any xC1)) ∧
    modelObjective ((List.range 5).map (fun d => (dayVars inpC1.index_map d).any xC1)) = 2 := by
  have h := claim_C8 inpC1
  have hhold := (h.2.2.2.2.1 xC1
    ((List.range 5).map (fun d => (dayVars inpC1.index_map d).any xC1))).mpr rfl
  refine ⟨hhold, ?_⟩
  rw [h.2.2.2.2.2 xC1 _ hhold]
  decide

/-- C7: the built model forbids exactly those options having some session
genuinely clashing with some lecture (of any selected course, the owning
course's own lectures included, since the lecture list is scanned without
any course restriction); a mutual-exclusion constraint exists (in one of
the two orientations) exactly for the clashing option pairs of different
courses; and no mutual-exclusion constraint is ever generated between two
options of the same course. -/
theorem claim_C7 (inp : ModelInput) (k k1 k2 : Key) :
    (k ∈ (build_model inp).forbids ↔
      ∃ e ∈ inp.index_map, e.1 = k ∧
        ∃ s ∈ e.2, ∃ lec ∈ inp.lectures, genuine_clash s lec = true) ∧
    (((k1, k2) ∈ (build_model inp).mutexes ∨ (k2, k1) ∈ (build_model inp).mutexes) ↔
      (k1.1 ≠ k2.1 ∧
        ∃ e1 ∈ inp.index_map, ∃ e2 ∈ inp.index_map, e1.1 = k1 ∧ e2.1 = k2 ∧
          ∃ s1 ∈ e1.2, ∃ s2 ∈ e2.2, genuine_clash s1 s2 = true)) ∧
    (k1.1 = k2.1 → (k1, k2) ∉ (build_model inp).mutexes) := by
  refine ⟨mem_forbids_iff, ⟨?_, ?_⟩, ?_⟩
  · rintro (h | h)
    · obtain ⟨q, hq, hne, hcl, heq⟩ := mem_mutexes_iff.mp h
      obtain ⟨h1, h2⟩ := Prod.mk.injEq .. ▸ heq
      subst h1; subst h2
      have hmem := pairsOf_mem_iff.mp hq
      have hq1 : q.1 ∈ allIndexSessions inp := hmem.subset (by simp)
      have hq2 : q.2 ∈ allIndexSessions inp := hmem.subset (by simp)
      obtain ⟨e1, he1, he1k, hs1⟩ := mem_allIndexSessions.mp hq1
      obtain ⟨e2, he2, he2k, hs2⟩ := mem_allIndexSessions.mp hq2
      exact ⟨hne, e1, he1, e2, he2, he1k, he2k, q.1.2, hs1, q.2.2, hs2, hcl⟩
    · obtain ⟨q, hq, hne, hcl, heq⟩ := mem_mutexes_iff.mp h
      obtain ⟨h1, h2⟩ := Prod.mk.injEq .. ▸ heq
      subst h1; subst h2
      have hmem := pairsOf_mem_iff.mp hq
      have hq1 : q.1 ∈ allIndexSessions inp := hmem.subset (by simp)
      have hq2 : q.2 ∈ allIndexSessions inp := hmem.subset (by simp)
      obtain ⟨e1, he1, he1k, hs1⟩ := mem_allIndexSessions.mp hq1
      obtain ⟨e2, he2, he2k, hs2⟩ := mem_allIndexSessions.mp hq2
      refine ⟨?_, e2, he2, e1, he1, he2k, he1k, q.2.2, hs2, q.1.2, hs1, ?_⟩
      · exact fun hh => hne hh.symm
      · rw [genuine_clash_comm]; exact hcl
  · rintro ⟨hne, e1, he1, e2, he2, rfl, rfl, s1, hs1, s2, hs2, hcl⟩
    exact mutex_or_of_clash he1 he2 hs1 hs2 hne hcl
  · intro heq hmem
    obtain ⟨q, hq, hne, hcl, heq2⟩ := mem_mutexes_iff.mp hmem
    obtain ⟨h1, h2⟩ := Prod.mk.injEq .. ▸ heq2
    rw [← h1, ← h2] at hne
    exact hne heq

/-- Witness for C7: in the single-course scenario `inpC6`, the only index
option is forbidden because its tutorial clashes with the owning course's
own lecture. -/
theorem claim_C7_witness : ("CS1", 1) ∈ (build_model inpC6).forbids :=
  (claim_C7 inpC6 ("CS1", 1) ("CS1", 1) ("CS1", 1)).1.mpr
    ⟨(("CS1", 1), [tutC6]), by decide, rfl, tutC6, by decide, lecC6, by decide, by decide⟩

/-- C1 (amended): any success result of `solve` — i.e. the extraction of
an assignment satisfying the built model — assigns exactly one chosen
index to every selected course that has at least one index option, no
session of a chosen index genuinely clashes with any lecture (own course
included), and no two sessions of chosen indexes of different courses
genuinely clash.  (The original claim extended the no-clash guarantee to
lecture-lecture pairs and the exactly-one guarantee to option-less
courses; both fail, see the counterexample.) -/
theorem claim_C1 (inp : ModelInput) (x : Key → Bool)
    (hx : satisfiesCore (build_model inp) x) :
    (∀ c ∈ inp.selected, eligibleKeys inp c ≠ [] →
      ((extract inp x).indexes.filter (fun k => k.1 = c)).length = 1) ∧
    (∀ e ∈ inp.index_map, x e.1 = true →
      ∀ s ∈ e.2, ∀ lec ∈ inp.lectures, genuine_clash s lec = false) ∧
    (∀ e1 ∈ inp.index_map, ∀ e2 ∈ inp.index_map, x e1.1 = true → x e2.1 = true →
      e1.1.1 ≠ e2.1.1 → ∀ s1 ∈ e1.2, ∀ s2 ∈ e2.2, genuine_clash s1 s2 = false) := by
  obtain ⟨hone, hforb, hmut⟩ := hx
  refine ⟨?_, ?_, ?_⟩
  · intro c hc hne
    have h1 : (eligibleKeys inp c).countP x = 1 :=
      hone (eligibleKeys inp c) (mem_exactlyOnes_iff.mpr ⟨c, hc, hne, rfl⟩)
    show ((chosenKeys inp x).filter (fun k => k.1 = c)).length = 1
    rw [chosenKeys, List.filter_filter, eligibleKeys] at *
    rw [List.countP_eq_length_filter, List.filter_filter] at h1
    rw [← h1]
    congr 1
    apply List.filter_congr
    intro a _
    exact Bool.and_comm _ _
  · intro e he hxe s hs lec hlec
    cases hcl : genuine_clash s lec with
    | false => rfl
    | true =>
      have : x e.1 = false :=
        hforb e.1 (mem_forbids_iff.mpr ⟨e, he, rfl, s, hs, lec, hlec, hcl⟩)
      rw [hxe] at this
      cases this
  · intro e1 he1 e2 he2 hx1 hx2 hne s1 hs1 s2 hs2
    cases hcl : genuine_clash s1 s2 with
    | false => rfl
    | true =>
      exfalso
      rcases mutex_or_of_clash he1 he2 hs1 hs2 hne hcl with h | h
      · rcases hmut _ h with h' | h'
        · rw [hx1] at h'; cases h'
        · rw [hx2] at h'; cases h'
      · rcases hmut _ h with h' | h'
        · rw [hx2] at h'; cases h'
        · rw [hx1] at h'; cases h'

/-- Witness for C1 at the concrete input `inpC1` with the satisfying
assignment `xC1`: course A gets exactly one chosen index. -/
theorem claim_C1_witness :
    ((extract inpC1 xC1).indexes.filter (fun k => k.1 = "A")).length = 1 :=
  (claim_C1 inpC1 xC1 (by decide)).1 "A" (by decide) (by decide)

/-- Counterexample to C1 as stated: at `inpC1` the assignment `xC1`
satisfies the built model, so `solve` succeeds, yet the resolved timetable
contains the two genuinely clashing Monday lectures of courses A and B
(a pair from different courses), and the selected course C is mapped to no
index at all. -/
theorem claim_C1_counterexample :
    satisfiesCore (build_model inpC1) xC1 ∧
    "C" ∈ inpC1.selected ∧
    ((extract inpC1 xC1).indexes.filter (fun k => k.1 = "C")).length = 0 ∧
    lecA ∈ (extract inpC1 xC1).timetable ∧
    lecB ∈ (extract inpC1 xC1).timetable ∧
    lecA.course ≠ lecB.course ∧
    genuine_clash lecA lecB = true := by
  refine ⟨by decide, by decide, by decide, by decide, by decide, by decide, by decide⟩

/-- C5 (amended): a selected course with no index-map entry does not make
model building fail — no `UnsatisfiableCourseError` exists in the code.
The course contributes no exactly-one constraint (the model is identical
to the one built with the course dropped from the selection, only a
console warning is printed) and any success result simply omits it. -/
theorem claim_C5 (inp : ModelInput) (c : String) (hc : eligibleKeys inp c = []) :
    build_model inp =
      build_model { inp with selected := inp.selected.filter (fun c2 => c2 ≠ c) } ∧
    ∀ x : Key → Bool, (extract inp x).indexes.filter (fun k => k.1 = c) = [] := by
  constructor
  · have hf : (fun c' : String =>
        if eligibleKeys inp c' = [] then none else some (eligibleKeys inp c')) c
          = none := by
      simp only [hc, if_true]
    unfold build_model
    congr 1
    show exactlyOnes inp = exactlyOnes _
    unfold exactlyOnes
    exact (@filterMap_filter_of_none String (List Key)
      (fun c' => if eligibleKeys inp c' = [] then none else some (eligibleKeys inp c'))
      c _ hf inp.selected).symm
  · intro x
    show ((chosenKeys inp x).filter (fun k => k.1 = c)) = []
    apply List.filter_eq_nil_iff.mpr
    intro k hk
    have hkm : k ∈ inp.index_map.map Prod.fst := (List.mem_filter.mp hk).1
    rw [eligibleKeys] at hc
    exact List.filter_eq_nil_iff.mp hc k hkm

/-- Witness for C5: at `inpC5` the model equals the one built without the
option-less course C. -/
theorem claim_C5_witness :
    build_model inpC5 =
      build_model { inpC5 with selected := inpC5.selected.filter (fun c2 => c2 ≠ "C") } :=
  (claim_C5 inpC5 "C" (by decide)).1

/-- Counterexample to C5 as stated: course C is selected with an empty
index-option list, yet model building does not fail: the model is built
with an exactly-one constraint only for course A, the assignment `xC5`
satisfies it, and the success result simply lacks C. -/
theorem claim_C5_counterexample :
    "C" ∈ inpC5.selected ∧
    eligibleKeys inpC5 "C" = [] ∧
    (build_model inpC5).exactlyOnes = [[("A", 1)]] ∧
    satisfiesCore (build_model inpC5) xC5 ∧
    (extract inpC5 xC5).indexes = [("A", 1)] := by
  refine ⟨by decide, by decide, by decide, by decide, by decide⟩

theorem findSome?_const_none {α β : Type} (l : List α) :
    l.findSome? (fun _ => (none : Option β)) = none := by
  induction l with
  | nil => rfl
  | cons a t ih => simp [List.findSome?_cons, ih]

theorem inpC6_no_assignment : ¬ feasible inpC6 := by
  rintro ⟨x, h1, h2, h3⟩
  have ha := h1 [("CS1", 1)] (by decide)
  have hb : x ("CS1", 1) = false := h2 ("CS1", 1) (by decide)
  rw [List.countP_cons, List.countP_nil, hb] at ha
  simp at ha

/-- C6 (amended): in the lecture-vs-own-tutorial scenario the model is
infeasible, so `solve` fails; but because `analyze_infeasibility` only
scans a course's lectures against the index options of *other* selected
courses (and index pairs of distinct courses), every single-course input
gets the generic no-feasible-schedule diagnostic — the course's own
lecture/tutorial clash is never named. -/
theorem claim_C6 :
    (∀ (lecs : List Session) (im : List (Key × List Session)) (c : String),
      analyze_infeasibility ⟨lecs, im, [c]⟩ =
        "No feasible schedule found due to timing conflicts") ∧
    ¬ feasible inpC6 := by
  constructor
  · intro lecs im c
    have h1 : firstLectureConflict ⟨lecs, im, [c]⟩ = none := by
      unfold firstLectureConflict
      have hfilter : ([c].filter (fun c2 => c2 ≠ c)) = [] := by simp
      simp only [hfilter, List.findSome?_nil]
      simp [List.findSome?_cons, findSome?_const_none]
    have h2 : firstIndexPairConflict ⟨lecs, im, [c]⟩ = none := by
      unfold firstIndexPairConflict
      show (pairsOf [c]).findSome? _ = none
      simp [pairsOf]
    unfold analyze_infeasibility
    rw [h1, h2]
  · exact inpC6_no_assignment

/-- Witness for C6: the single-course scenario itself receives the
generic diagnostic. -/
theorem claim_C6_witness :
    analyze_infeasibility inpC6 = "No feasible schedule found due to timing conflicts" :=
  claim_C6.1 [lecC6] [(("CS1", 1), [tutC6])] "CS1"

/-- Counterexample to C6 as stated: the scenario is infeasible (so `solve`
does return a failure), but the diagnostic produced is the generic
message, not one naming the course's lecture clashing with its own
tutorial index. -/
theorem claim_C6_counterexample :
    (¬ feasible inpC6) ∧
    analyze_infeasibility inpC6 = "No feasible schedule found due to timing conflicts" ∧
    analyze_infeasibility inpC6 ≠ "Conflict: CS1 lecture clashes with CS1 TUT (Index 1)" := by
  refine ⟨inpC6_no_assignment, by decide, by decide⟩

/-- C9: the ranked enumeration of `planner.solve` collects the first
`num_solutions` solutions of the solver's discovery stream (the callback
stops the search once the cap is reached), stable-sorts them ascending by
campus-day count — ties keep discovery order, expressed by the filter
equations — returns at most `num_solutions` of them (`min` of cap and
stream length), and on a stream with exactly one feasible solution
returns a single-element list. -/
theorem claim_C9 (stream : List PSolution) (n : ℕ) :
    (collectSolutions stream n = stream.take n) ∧
    (planner_solve stream n = none ↔ stream.take n = []) ∧
    (∀ r, planner_solve stream n = some r →
      r = sortByCampus (stream.take n) ∧
      r.Pairwise (fun a b => a.campus_days ≤ b.campus_days) ∧
      (∀ k, r.filter (fun t => t.campus_days = k) =
        (stream.take n).filter (fun t => t.campus_days = k)) ∧
      r.length = min n stream.length) ∧
    (stream.length = 1 → 1 ≤ n →
      ∃ r, planner_solve stream n = some r ∧ r.length = 1) := by
  have hps : ∀ r, planner_solve stream n = some r → r = sortByCampus (stream.take n) := by
    intro r hr
    unfold planner_solve collectSolutions at hr
    by_cases h : stream.take n = []
    · rw [if_pos h] at hr; cases hr
    · rw [if_neg h] at hr
      injection hr with hr
      rw [← hr]
      apply List.take_of_length_le
      rw [length_sortByCampus, List.length_take]
      exact min_le_left _ _
  refine ⟨rfl, ?_, ?_, ?_⟩
  · unfold planner_solve collectSolutions
    by_cases h : stream.take n = []
    · simp [h]
    · simp [h]
  · intro r hr
    have h0 := hps r hr
    subst h0
    refine ⟨rfl, sorted_sortByCampus _, fun k => filter_sortByCampus _ k, ?_⟩
    rw [length_sortByCampus, List.length_take]
  · intro h1 hn
    have hne : stream.take n ≠ [] := by
      intro hh
      have hlen := congrArg List.length hh
      rw [List.length_take, h1] at hlen
      simp at hlen
      omega
    refine ⟨sortByCampus (stream.take n), ?_, ?_⟩
    · unfold planner_solve collectSolutions
      rw [if_neg hne]
      congr 1
      apply List.take_of_length_le
      rw [length_sortByCampus, List.length_take]
      exact min_le_left _ _
    · rw [length_sortByCampus, List.length_take, h1]
      omega

/-- Witness for C9: a stream with a single feasible solution yields a
single-element result list under the default cap of three. -/
theorem claim_C9_witness :
    ∃ r, planner_solve [psol1] 3 = some r ∧ r.length = 1 :=
  (claim_C9 [psol1] 3).2.2.2 rfl (by omega)

end Timetable
